import Mathlib

/-!
# Alien Invaders terminal game — verification of the core game logic

Shallow embedding of `alien_invaders_terminal.py`.  Grid coordinates are
integers; Python lists become Lean `List`s; the wall-clock timers and the
random enemy-fire draw become oracle inputs to the per-iteration `tick`
function, and the curses calls (rendering, key polling) are modelled by an
explicit `Key` symbol per iteration and an `epilogue` action list.
-/

/-- `Laser(x, y, direction)`: a projectile; `dir = -1` is up, `1` is down.
The constant `char` `"|"` is render-only and omitted. -/
structure Laser where
  x : Int
  y : Int
  dir : Int
deriving DecidableEq, Repr

/-- `Laser.update`: `self.y += self.dir`. -/
def Laser.update (l : Laser) : Laser :=
  { l with y := l.y + l.dir }

/-- `Player(x, y, max_x)`: the ship; `char` `"A"` is render-only and omitted. -/
structure Player where
  x : Int
  y : Int
  max_x : Int
deriving DecidableEq, Repr

/-- `Player.move(dx)`: `self.x = max(1, min(self.max_x - 2, self.x + dx))`. -/
def Player.move (p : Player) (dx : Int) : Player :=
  { p with x := max 1 (min (p.max_x - 2) (p.x + dx)) }

/-- `Alien(x, y)`: an enemy with its animation-frame index; the displayed
character is derived from `frame` via `Alien.FRAMES`. -/
structure Alien where
  x : Int
  y : Int
  frame : Nat
deriving DecidableEq, Repr

/-- `Alien.FRAMES = ["/", "V", "\\", "Λ"]`. -/
def Alien.FRAMES : List Char := ['/', 'V', '\\', 'Λ']

/-- `Alien.animate`: `self.frame = (self.frame + 1) % len(FRAMES)`. -/
def Alien.animate (a : Alien) : Alien :=
  { a with frame := (a.frame + 1) % Alien.FRAMES.length }

/-- The fields of `GameState.__init__` that the game logic reads or writes
(the curses window handle itself is external). -/
structure GameState where
  height : Int
  width : Int
  player : Player
  aliens : List Alien
  player_lasers : List Laser
  alien_lasers : List Laser
  alien_dir : Int
  tick_count : Nat
  score : Nat
  level : Nat
  game_over : Bool
deriving DecidableEq, Repr

/-- `GameState.init_aliens`: `rows, cols = 5, 11`;
`x_margin = (width - cols*4) // 2`; for `r` in `range(rows)`, `c` in
`range(cols)`: append `Alien(x_margin + c*4, 2 + r*2)`.  The method appends
to `self.aliens`, which is `[]` at both call sites, so it is modelled as
producing the grid list. -/
def init_aliens (width : Int) : List Alien :=
  (List.range 5).flatMap (fun r =>
    (List.range 11).map (fun c =>
      { x := (width - 11 * 4) / 2 + (c : Int) * 4, y := 2 + (r : Int) * 2, frame := 0 }))

/-- `GameState.alien_speed`: `max(0.05, 0.3 - (self.level - 1) * 0.03)`,
with the decimal literals read as the exact rationals they denote. -/
def alien_speed (level : Nat) : ℚ :=
  max (5 / 100 : ℚ) ((3 / 10 : ℚ) - ((level : ℚ) - 1) * (3 / 100))

/-- `GameState.__init__`: player at `(width // 2, height - 2)`, empty laser
lists, `alien_dir = 1`, score `0`, level `1`, `game_over = False`, followed
by `init_aliens()`. -/
def initGameState (height width : Int) : GameState :=
  { height := height
    width := width
    player := { x := width / 2, y := height - 2, max_x := width }
    aliens := init_aliens width
    player_lasers := []
    alien_lasers := []
    alien_dir := 1
    tick_count := 0
    score := 0
    level := 1
    game_over := false }

/-- The key symbols the input branch of `play` distinguishes: `q`/`Q`,
`KEY_LEFT`, `KEY_RIGHT`, space/`z`, any other key, and no key pending. -/
inductive Key where
  | quit
  | left
  | right
  | fire
  | other
  | noKey
deriving DecidableEq, Repr

/-- The input branch of `play` for the non-quit keys (the quit keys `break`
out of the loop before reaching the update code; see `run`):
left/right call `Player.move`, space/`z` append
`Laser(player.x, player.y - 1, -1)` when fewer than 3 player lasers are
live, and any other symbol changes nothing. -/
def applyInput (k : Key) (s : GameState) : GameState :=
  match k with
  | Key.left => { s with player := s.player.move (-1) }
  | Key.right => { s with player := s.player.move 1 }
  | Key.fire =>
      if s.player_lasers.length < 3 then
        { s with player_lasers :=
            s.player_lasers ++ [{ x := s.player.x, y := s.player.y - 1, dir := -1 }] }
      else s
  | _ => s

/-- The alien-movement loop body (`for alien in state.aliens: alien.x +=
state.alien_dir; if alien.x <= 1 or alien.x >= state.width - 2: edge_hit =
True`): every alien's `x` is shifted by `dir`, and `edge_hit` accumulates the
border test of each alien's own post-move `x` across the whole list. -/
def marchStep (aliens : List Alien) (dir width : Int) : List Alien × Bool :=
  match aliens with
  | [] => ([], false)
  | a :: rest =>
      let a' := { a with x := a.x + dir }
      let hit := decide (a'.x ≤ 1) || decide (a'.x ≥ width - 2)
      let r := marchStep rest dir width
      (a' :: r.1, hit || r.2)

/-- The descent loop body (`for alien in state.aliens: alien.y += 1; if
alien.y >= state.player.y: state.game_over = True`): every alien's `y` is
incremented, and the flag accumulates the player-row test of each alien's
own post-move `y` across the whole list. -/
def descendStep (aliens : List Alien) (playerY : Int) : List Alien × Bool :=
  match aliens with
  | [] => ([], false)
  | a :: rest =>
      let a' := { a with y := a.y + 1 }
      let reached := decide (a'.y ≥ playerY)
      let r := descendStep rest playerY
      (a' :: r.1, reached || r.2)

/-- The `Update aliens movement` block of `play` (run when the march timer
fires): move every alien horizontally collecting `edge_hit`; if `edge_hit`,
`alien_dir *= -1` and every alien descends one row, setting `game_over`
when any alien reaches the player's row. -/
def advanceAliens (s : GameState) : GameState :=
  let ms := marchStep s.aliens s.alien_dir s.width
  if ms.2 then
    let ds := descendStep ms.1 s.player.y
    { s with aliens := ds.1, alien_dir := -1 * s.alien_dir,
             game_over := s.game_over || ds.2 }
  else
    { s with aliens := ms.1 }

/-- The `Alien animation` block of `play` (run when the animation timer
fires): every alien cycles its frame. -/
def animateAliens (s : GameState) : GameState :=
  { s with aliens := s.aliens.map Alien.animate }

/-- The `Aliens fire randomly` block of `play`: `random.random() < 0.02`
and the `random.choice` pick are modelled by an oracle `Option Nat`; a
supplied in-range index fires `Laser(shooter.x, shooter.y + 1, 1)` from
that alien (the guard `i < length` also covers the `state.aliens`
non-emptiness test). -/
def maybeAlienFire (pick : Option Nat) (s : GameState) : GameState :=
  match pick with
  | none => s
  | some i =>
      match s.aliens.get? i with
      | some shooter =>
          { s with alien_lasers :=
              s.alien_lasers ++ [{ x := shooter.x, y := shooter.y + 1, dir := 1 }] }
      | none => s

/-- The player-laser half of the `Update lasers` block: each laser in a
copy of the list is advanced and then removed from the live list when its
new `y ≤ 1`. -/
def updatePlayerLasers (lasers : List Laser) : List Laser :=
  match lasers with
  | [] => []
  | l :: rest =>
      let l' := l.update
      if l'.y ≤ 1 then updatePlayerLasers rest
      else l' :: updatePlayerLasers rest

/-- The alien-laser half of the `Update lasers` block: each laser in a copy
of the list is advanced and then removed when its new `y ≥ height - 1`. -/
def updateAlienLasers (height : Int) (lasers : List Laser) : List Laser :=
  match lasers with
  | [] => []
  | l :: rest =>
      let l' := l.update
      if l'.y ≥ height - 1 then updateAlienLasers height rest
      else l' :: updateAlienLasers height rest

/-- The `Update lasers` block of `play`. -/
def advanceProjectiles (s : GameState) : GameState :=
  { s with player_lasers := updatePlayerLasers s.player_lasers,
           alien_lasers := updateAlienLasers s.height s.alien_lasers }

/-- The inner loop of the `Player lasers hit aliens` block: scan the aliens
in list order for the first one at the laser's exact position, and remove
it; `none` when no alien matches. -/
def removeFirstHit (l : Laser) (aliens : List Alien) : Option (List Alien) :=
  match aliens with
  | [] => none
  | a :: rest =>
      if l.x = a.x ∧ l.y = a.y then some rest
      else
        match removeFirstHit l rest with
        | some rest' => some (a :: rest')
        | none => none

/-- The `Player lasers hit aliens` block of `play`: for each player laser
in order, scan the aliens for an exact position match; on the first match
remove that alien and the laser, add `10` to the score, and `break` to the
next laser.  Returns the surviving lasers, surviving aliens, and score. -/
def collidePass (lasers : List Laser) (aliens : List Alien) (score : Nat) :
    List Laser × List Alien × Nat :=
  match lasers with
  | [] => ([], aliens, score)
  | l :: rest =>
      match removeFirstHit l aliens with
      | some aliens' => collidePass rest aliens' (score + 10)
      | none =>
          let r := collidePass rest aliens score
          (l :: r.1, r.2.1, r.2.2)

/-- `resolveCollisions` applied to the game state. -/
def resolveCollisions (s : GameState) : GameState :=
  let r := collidePass s.player_lasers s.aliens s.score
  { s with player_lasers := r.1, aliens := r.2.1, score := r.2.2 }

/-- The loop of the `Alien lasers hit player` block (`for laser in
state.alien_lasers[:]: if laser.x == player.x and laser.y == player.y:
state.game_over = True`), threading the flag through the scan. -/
def alienHitFlag (lasers : List Laser) (p : Player) (g : Bool) : Bool :=
  match lasers with
  | [] => g
  | l :: rest =>
      alienHitFlag rest p (if l.x = p.x ∧ l.y = p.y then true else g)

/-- The `Alien lasers hit player` block of `play`: sets only `game_over`;
no laser is removed. -/
def alienLasersHitPlayer (s : GameState) : GameState :=
  { s with game_over := alienHitFlag s.alien_lasers s.player s.game_over }

/-- The `Check level cleared` block of `play`: when the alien list is
empty, increment the level, respawn via `init_aliens` (appending to the
now-empty list), and clear both laser lists. -/
def checkWaveCleared (s : GameState) : GameState :=
  if s.aliens.isEmpty then
    { s with level := s.level + 1,
             aliens := init_aliens s.width,
             player_lasers := [],
             alien_lasers := [] }
  else s

/-- The oracle for one iteration of the `while` loop of `play`: the polled
key, whether the march timer fired (`now - last_move > alien_speed`),
whether the animation timer fired (`now - last_anim > 0.3`), and the
random enemy-fire draw. -/
structure TickInput where
  key : Key
  march : Bool
  anim : Bool
  firePick : Option Nat
deriving DecidableEq, Repr

/-- One full iteration of the `while not state.game_over` loop of `play`
for a non-quit key, in source order: input, alien march (when the timer
fired), animation (when the timer fired), random alien fire, laser
advancement, player-laser/alien collisions, alien-laser/player check, and
the wave-cleared check.  Rendering and the 10 ms sleep mutate no game
state. -/
def tickStep (i : TickInput) (s : GameState) : GameState :=
  let s1 := applyInput i.key s
  let s2 := if i.march then advanceAliens s1 else s1
  let s3 := if i.anim then animateAliens s2 else s2
  let s4 := maybeAlienFire i.firePick s3
  let s5 := advanceProjectiles s4
  let s6 := resolveCollisions s5
  let s7 := alienLasersHitPlayer s6
  checkWaveCleared s7

/-- How the loop of `play` was left: by the `while` condition
(`game_over`), by the `break` on `q`/`Q`, or because the supplied oracle
list ran out while the loop would have continued. -/
inductive Outcome where
  | gameOverExit
  | quitExit
  | oracleExhausted
deriving DecidableEq, Repr

/-- The `while not state.game_over` loop of `play`, driven by a finite
oracle list: each iteration first re-checks the loop condition, then
`break`s on the quit key before any update, and otherwise runs
`tickStep`. -/
def run (inputs : List TickInput) (s : GameState) : GameState × Outcome :=
  match inputs with
  | [] => (s, if s.game_over then Outcome.gameOverExit else Outcome.oracleExhausted)
  | i :: rest =>
      if s.game_over then (s, Outcome.gameOverExit)
      else if i.key = Key.quit then (s, Outcome.quitExit)
      else run rest (tickStep i s)

/-- The terminal actions after the loop of `play` (lines after the loop):
`stdscr.nodelay(False)` (blocking input), the centered `GAME OVER` message,
and `stdscr.getch()` (wait for one keystroke). -/
inductive EndAction where
  | switchToBlocking
  | drawCenteredMessage
  | waitForKey
deriving DecidableEq, Repr

/-- The epilogue of `play` runs unconditionally after the loop, whichever
way the loop was left. -/
def epilogue (_o : Outcome) : List EndAction :=
  [EndAction.switchToBlocking, EndAction.drawCenteredMessage, EndAction.waitForKey]

/-- A 24×80 state whose alien list is empty, as left by `resolveCollisions`
removing the last alien, for the wave-respawn scenario. -/
def clearedScenarioState : GameState :=
  { initGameState 24 80 with aliens := [] }

/-- A 24×80 state holding a single alien at the left margin `x = 1` with
`alien_dir = 1`, the boundary scenario of the spec. -/
def edgeScenarioState : GameState :=
  { height := 24
    width := 80
    player := { x := 40, y := 22, max_x := 80 }
    aliens := [{ x := 1, y := 5, frame := 0 }]
    player_lasers := []
    alien_lasers := []
    alien_dir := 1
    tick_count := 0
    score := 0
    level := 1
    game_over := false }

/-!  ## Helper lemmas  -/

theorem marchStep_eq (aliens : List Alien) (d w : Int) :
    marchStep aliens d w =
      (aliens.map (fun a => { a with x := a.x + d }),
       (aliens.map (fun a => { a with x := a.x + d })).any
         (fun a => decide (a.x ≤ 1) || decide (a.x ≥ w - 2))) := by
  induction aliens with
  | nil => rfl
  | cons a rest ih => simp [marchStep, ih, List.any_cons, Bool.or_assoc]

theorem descendStep_eq (aliens : List Alien) (playerY : Int) :
    descendStep aliens playerY =
      (aliens.map (fun a => { a with y := a.y + 1 }),
       (aliens.map (fun a => { a with y := a.y + 1 })).any
         (fun a => decide (a.y ≥ playerY))) := by
  induction aliens with
  | nil => rfl
  | cons a rest ih => simp [descendStep, ih, List.any_cons, Bool.or_assoc]

theorem advanceAliens_eq (s : GameState) :
    advanceAliens s =
      if (marchStep s.aliens s.alien_dir s.width).2 then
        { s with
            aliens := (descendStep (marchStep s.aliens s.alien_dir s.width).1 s.player.y).1,
            alien_dir := -1 * s.alien_dir,
            game_over :=
              s.game_over || (descendStep (marchStep s.aliens s.alien_dir s.width).1 s.player.y).2 }
      else { s with aliens := (marchStep s.aliens s.alien_dir s.width).1 } :=
  rfl

theorem advanceAliens_player (s : GameState) : (advanceAliens s).player = s.player := by
  rw [advanceAliens_eq]
  split <;> rfl

theorem advanceAliens_player_lasers (s : GameState) :
    (advanceAliens s).player_lasers = s.player_lasers := by
  rw [advanceAliens_eq]
  split <;> rfl

theorem maybeAlienFire_fields (pick : Option Nat) (s : GameState) :
    (maybeAlienFire pick s).player = s.player ∧
    (maybeAlienFire pick s).player_lasers = s.player_lasers ∧
    (maybeAlienFire pick s).aliens = s.aliens ∧
    (maybeAlienFire pick s).game_over = s.game_over := by
  cases pick with
  | none => exact ⟨rfl, rfl, rfl, rfl⟩
  | some i =>
      cases h : s.aliens[i]? with
      | none => simp [maybeAlienFire, List.get?_eq_getElem?, h]
      | some a => simp [maybeAlienFire, List.get?_eq_getElem?, h]

theorem updatePlayerLasers_eq (lasers : List Laser) :
    updatePlayerLasers lasers
      = (lasers.map Laser.update).filter (fun l => !decide (l.y ≤ 1)) := by
  induction lasers with
  | nil => rfl
  | cons l rest ih =>
      rw [updatePlayerLasers]
      by_cases h : (l.update).y ≤ 1
      · simp [h, ih, List.filter_cons]
      · simp [h, ih, List.filter_cons]

theorem updateAlienLasers_eq (height : Int) (lasers : List Laser) :
    updateAlienLasers height lasers
      = (lasers.map Laser.update).filter (fun l => !decide (l.y ≥ height - 1)) := by
  induction lasers with
  | nil => rfl
  | cons l rest ih =>
      rw [updateAlienLasers]
      by_cases h : (l.update).y ≥ height - 1
      · rw [if_pos h, ih, List.map_cons, List.filter_cons]
        have hb : (!decide ((Laser.update l).y ≥ height - 1)) = false := by simp [h]
        rw [hb]
        simp
      · rw [if_neg h, ih, List.map_cons, List.filter_cons]
        have hb : (!decide ((Laser.update l).y ≥ height - 1)) = true := by simp [h]
        rw [hb]
        simp

theorem updatePlayerLasers_le (lasers : List Laser) :
    (updatePlayerLasers lasers).length ≤ lasers.length := by
  rw [updatePlayerLasers_eq]
  exact le_trans (List.length_filter_le _ _) (by simp)

theorem removeFirstHit_length (l : Laser) :
    ∀ aliens aliens' : List Alien,
      removeFirstHit l aliens = some aliens' → aliens.length = aliens'.length + 1 := by
  intro aliens
  induction aliens with
  | nil => intro as' h; simp [removeFirstHit] at h
  | cons a rest ih =>
      intro as' h
      rw [removeFirstHit] at h
      by_cases hc : l.x = a.x ∧ l.y = a.y
      · rw [if_pos hc] at h
        have := Option.some.inj h
        subst this
        simp
      · rw [if_neg hc] at h
        cases hr : removeFirstHit l rest with
        | none => rw [hr] at h; exact absurd h (by simp)
        | some rest' =>
            rw [hr] at h
            have := Option.some.inj h
            subst this
            simp [ih rest' hr]

theorem removeFirstHit_none_iff (l : Laser) (aliens : List Alien) :
    removeFirstHit l aliens = none ↔ ∀ a ∈ aliens, ¬(l.x = a.x ∧ l.y = a.y) := by
  induction aliens with
  | nil => simp [removeFirstHit]
  | cons a rest ih =>
      rw [removeFirstHit]
      by_cases hc : l.x = a.x ∧ l.y = a.y
      · rw [if_pos hc]
        simp [List.forall_mem_cons, hc.1, hc.2]
      · rw [if_neg hc]
        cases hr : removeFirstHit l rest with
        | some rest' =>
            simp only [List.forall_mem_cons]
            constructor
            · intro h; exact absurd h (by simp)
            · rintro ⟨-, hrest⟩
              have h0 := ih.mpr hrest
              rw [hr] at h0
              exact absurd h0 (by simp)
        | none =>
            simp only [List.forall_mem_cons]
            constructor
            · intro _; exact ⟨hc, ih.mp hr⟩
            · intro _; trivial

theorem collidePass_counts (lasers : List Laser) :
    ∀ (aliens : List Alien) (score : Nat), ∃ k : Nat,
      (collidePass lasers aliens score).1.length + k = lasers.length ∧
      (collidePass lasers aliens score).2.1.length + k = aliens.length ∧
      (collidePass lasers aliens score).2.2 = score + 10 * k := by
  induction lasers with
  | nil =>
      intro aliens score
      exact ⟨0, by simp [collidePass], by simp [collidePass], by simp [collidePass]⟩
  | cons l rest ih =>
      intro aliens score
      cases hr : removeFirstHit l aliens with
      | some aliens' =>
          obtain ⟨k, h1, h2, h3⟩ := ih aliens' (score + 10)
          have hlen := removeFirstHit_length l aliens aliens' hr
          refine ⟨k + 1, ?_, ?_, ?_⟩
          · simp only [collidePass, hr]
            simp at h1 ⊢
            omega
          · simp only [collidePass, hr]
            omega
          · simp only [collidePass, hr]
            omega
      | none =>
          obtain ⟨k, h1, h2, h3⟩ := ih aliens score
          refine ⟨k, ?_, ?_, ?_⟩
          · simp only [collidePass, hr, List.length_cons]
            omega
          · simp only [collidePass, hr]
            omega
          · simp only [collidePass, hr]
            omega

theorem collidePass_le (lasers : List Laser) (aliens : List Alien) (score : Nat) :
    (collidePass lasers aliens score).1.length ≤ lasers.length := by
  obtain ⟨k, h1, -, -⟩ := collidePass_counts lasers aliens score
  omega

theorem alienHitFlag_eq (lasers : List Laser) (p : Player) :
    ∀ g : Bool,
      alienHitFlag lasers p g
        = (g || lasers.any (fun l => decide (l.x = p.x) && decide (l.y = p.y))) := by
  induction lasers with
  | nil => intro g; simp [alienHitFlag]
  | cons l rest ih =>
      intro g
      rw [alienHitFlag, ih]
      by_cases h : l.x = p.x ∧ l.y = p.y
      · simp [h.1, h.2]
      · rw [if_neg h]
        have hd : (decide (l.x = p.x) && decide (l.y = p.y)) = false := by
          by_cases h1 : l.x = p.x
          · have h2 : ¬l.y = p.y := fun h2 => h ⟨h1, h2⟩
            simp [h1, h2]
          · simp [h1]
        simp [List.any_cons, hd]

theorem checkWaveCleared_player (s : GameState) :
    (checkWaveCleared s).player = s.player := by
  unfold checkWaveCleared
  split <;> rfl

theorem checkWaveCleared_lasers_le (s : GameState) :
    (checkWaveCleared s).player_lasers.length ≤ s.player_lasers.length := by
  unfold checkWaveCleared
  split
  · simp
  · exact le_refl _

theorem applyInput_player_y (k : Key) (s : GameState) :
    (applyInput k s).player.y = s.player.y := by
  cases k <;> first
    | rfl
    | (simp only [applyInput]; split <;> rfl)

theorem applyInput_lasers_le (k : Key) (s : GameState) (h : s.player_lasers.length ≤ 3) :
    (applyInput k s).player_lasers.length ≤ 3 := by
  cases k
  case fire =>
      by_cases hlt : s.player_lasers.length < 3
      · simp only [applyInput, if_pos hlt, List.length_append, List.length_cons,
          List.length_nil]
        omega
      · simp only [applyInput, if_neg hlt]
        exact h
  all_goals exact h

theorem postPasses_lasers_le (t : GameState) :
    (checkWaveCleared (alienLasersHitPlayer (resolveCollisions
        (advanceProjectiles t)))).player_lasers.length
      ≤ t.player_lasers.length := by
  refine le_trans (checkWaveCleared_lasers_le _) ?_
  have h3 : ∀ u : GameState, (alienLasersHitPlayer u).player_lasers = u.player_lasers :=
    fun u => rfl
  have h2 : ∀ u : GameState,
      (resolveCollisions u).player_lasers = (collidePass u.player_lasers u.aliens u.score).1 :=
    fun u => rfl
  rw [h3, h2]
  refine le_trans (collidePass_le _ _ _) ?_
  exact updatePlayerLasers_le _

theorem tickStep_lasers_le (i : TickInput) (s : GameState)
    (h : s.player_lasers.length ≤ 3) :
    (tickStep i s).player_lasers.length ≤ 3 := by
  have hmarch : ∀ t : GameState,
      (if i.march then advanceAliens t else t).player_lasers = t.player_lasers := by
    intro t
    split
    · exact advanceAliens_player_lasers t
    · rfl
  have hanim : ∀ t : GameState,
      (if i.anim then animateAliens t else t).player_lasers = t.player_lasers := by
    intro t
    split <;> rfl
  calc (tickStep i s).player_lasers.length
      ≤ (maybeAlienFire i.firePick
          (if i.anim then
            animateAliens (if i.march then advanceAliens (applyInput i.key s)
              else applyInput i.key s)
          else
            (if i.march then advanceAliens (applyInput i.key s)
              else applyInput i.key s))).player_lasers.length :=
        postPasses_lasers_le _
    _ = (applyInput i.key s).player_lasers.length := by
        rw [(maybeAlienFire_fields _ _).2.1, hanim, hmarch]
    _ ≤ 3 := applyInput_lasers_le i.key s h

theorem tickStep_player_y (i : TickInput) (s : GameState) :
    (tickStep i s).player.y = s.player.y := by
  have hmarch : ∀ t : GameState,
      (if i.march then advanceAliens t else t).player = t.player := by
    intro t
    split
    · exact advanceAliens_player t
    · rfl
  have hanim : ∀ t : GameState,
      (if i.anim then animateAliens t else t).player = t.player := by
    intro t
    split <;> rfl
  have hchain : (tickStep i s).player = (applyInput i.key s).player := by
    show (checkWaveCleared (alienLasersHitPlayer (resolveCollisions (advanceProjectiles
        (maybeAlienFire i.firePick
          (if i.anim then
            animateAliens (if i.march then advanceAliens (applyInput i.key s)
              else applyInput i.key s)
          else
            (if i.march then advanceAliens (applyInput i.key s)
              else applyInput i.key s))))))).player = (applyInput i.key s).player
    rw [checkWaveCleared_player]
    have h3 : ∀ u : GameState, (alienLasersHitPlayer u).player = u.player := fun u => rfl
    have h2 : ∀ u : GameState, (resolveCollisions u).player = u.player := fun u => rfl
    have h1 : ∀ u : GameState, (advanceProjectiles u).player = u.player := fun u => rfl
    rw [h3, h2, h1, (maybeAlienFire_fields _ _).1, hanim, hmarch]
  rw [hchain, applyInput_player_y]

theorem run_preserve (P : GameState → Prop)
    (hstep : ∀ (i : TickInput) (s : GameState), P s → P (tickStep i s)) :
    ∀ (inputs : List TickInput) (s : GameState), P s → P (run inputs s).1 := by
  intro inputs
  induction inputs with
  | nil => intro s hs; exact hs
  | cons i rest ih =>
      intro s hs
      by_cases hg : s.game_over
      · simp only [run, hg, if_pos, if_true]
        exact hs
      · by_cases hk : i.key = Key.quit
        · simp only [run, hg, if_false, hk, if_true]
          exact hs
        · simp only [run]
          rw [if_neg hg, if_neg hk]
          exact ih _ (hstep i s hs)

/-- C4: for every level `L ≥ 1` the march interval is
`max(0.05, 0.30 − (L−1)·0.03)`; at `L = 10` the floor is reached exactly
(the unfloored value `0.03` lies strictly below `0.05`), and the interval
is never below `0.05`, in particular never negative. -/
theorem alien_speed_spec (L : Nat) (hL : 1 ≤ L) :
    alien_speed L = max (5 / 100 : ℚ) ((3 / 10 : ℚ) - ((L : ℚ) - 1) * (3 / 100)) ∧
    alien_speed 10 = 5 / 100 ∧
    ((3 / 10 : ℚ) - ((10 : ℚ) - 1) * (3 / 100)) < 5 / 100 ∧
    (5 / 100 : ℚ) ≤ alien_speed L ∧
    0 < alien_speed L := by
  refine ⟨rfl, ?_, by norm_num, le_max_left _ _, lt_of_lt_of_le (by norm_num) (le_max_left _ _)⟩
  have : ((10 : Nat) : ℚ) = 10 := by norm_num
  rw [alien_speed, this]
  norm_num

/-- Witness for `alien_speed_spec` at `L = 3`. -/
theorem alien_speed_spec_witness :
    alien_speed 3 = max (5 / 100 : ℚ) ((3 / 10 : ℚ) - ((3 : ℚ) - 1) * (3 / 100)) :=
  (alien_speed_spec 3 (by norm_num)).1

/-- C6: `Player.move dx` sets `x` to `clamp(x + dx, 1, max_x − 2)` and
changes nothing else; hence from any start position inside `[1, max_x − 2]`
every sequence of moves keeps `x` inside `[1, max_x − 2]`. -/
theorem player_move_spec (p : Player) (dx : Int)
    (h1 : 1 ≤ p.x) (h2 : p.x ≤ p.max_x - 2) :
    (p.move dx).x = max 1 (min (p.max_x - 2) (p.x + dx)) ∧
    (p.move dx).y = p.y ∧
    (p.move dx).max_x = p.max_x ∧
    (∀ dxs : List Int,
      1 ≤ (dxs.foldl Player.move p).x ∧
      (dxs.foldl Player.move p).x ≤ (dxs.foldl Player.move p).max_x - 2) := by
  refine ⟨rfl, rfl, rfl, ?_⟩
  intro dxs
  induction dxs generalizing p with
  | nil => exact ⟨h1, h2⟩
  | cons d ds ih =>
      apply ih
      · exact le_max_left _ _
      · exact max_le (le_trans h1 h2) (min_le_left _ _)

/-- Witness for `player_move_spec`: a player at `x = 40` on an 80-wide
field, moved right then left repeatedly, stays inside `[1, 78]`. -/
theorem player_move_spec_witness :
    (Player.move { x := 40, y := 22, max_x := 80 } 1).x = 41 ∧
    1 ≤ (([1, 1, -1] : List Int).foldl Player.move { x := 40, y := 22, max_x := 80 }).x := by
  have h := player_move_spec { x := 40, y := 22, max_x := 80 } 1 (by norm_num) (by norm_num)
  refine ⟨?_, (h.2.2.2 [1, 1, -1]).1⟩
  rw [h.1]
  norm_num

/-- C1: `advanceAliens` adds `alien_dir` to every alien's `x`; the edge
condition (`x ≤ 1` or `x ≥ width − 2`) is the disjunction over every alien
of the fully moved list, not a short-circuit on the first offender; on an
edge hit the direction is flipped exactly once, every alien's `y` rises by
1, and `game_over` is set exactly when some alien's new `y` reaches or
passes the player's row (all aliens checked).  A single alien at `x = 1`
with `alien_dir = 1` moves to `x = 2` with no edge hit. -/
theorem advanceEnemies_spec (s : GameState) :
    ((marchStep s.aliens s.alien_dir s.width).1
        = s.aliens.map (fun a => { a with x := a.x + s.alien_dir })) ∧
    ((marchStep s.aliens s.alien_dir s.width).2
        = (s.aliens.map (fun a => { a with x := a.x + s.alien_dir })).any
            (fun a => decide (a.x ≤ 1) || decide (a.x ≥ s.width - 2))) ∧
    ((advanceAliens s).alien_dir =
        if (marchStep s.aliens s.alien_dir s.width).2 then -1 * s.alien_dir
        else s.alien_dir) ∧
    ((advanceAliens s).aliens =
        if (marchStep s.aliens s.alien_dir s.width).2 then
          (s.aliens.map (fun a => { a with x := a.x + s.alien_dir })).map
            (fun a => { a with y := a.y + 1 })
        else s.aliens.map (fun a => { a with x := a.x + s.alien_dir })) ∧
    ((advanceAliens s).game_over =
        (s.game_over ||
          ((marchStep s.aliens s.alien_dir s.width).2 &&
            ((s.aliens.map (fun a => { a with x := a.x + s.alien_dir })).map
                (fun a => { a with y := a.y + 1 })).any
              (fun a => decide (a.y ≥ s.player.y))))) ∧
    (advanceAliens edgeScenarioState).aliens = [{ x := 2, y := 5, frame := 0 }] ∧
    (advanceAliens edgeScenarioState).alien_dir = 1 ∧
    (advanceAliens edgeScenarioState).game_over = false := by
  have hm := marchStep_eq s.aliens s.alien_dir s.width
  have hd := descendStep_eq (s.aliens.map (fun a => { a with x := a.x + s.alien_dir }))
    s.player.y
  refine ⟨by rw [hm], by rw [hm], ?_, ?_, ?_, by decide, by decide, by decide⟩
  · rw [advanceAliens_eq]
    cases hB : (marchStep s.aliens s.alien_dir s.width).2 with
    | true => rw [if_pos rfl, if_pos rfl]
    | false => rw [if_neg (by simp), if_neg (by simp)]
  · rw [advanceAliens_eq]
    cases hB : (marchStep s.aliens s.alien_dir s.width).2 with
    | true =>
        rw [if_pos rfl, if_pos rfl]
        show (descendStep (marchStep s.aliens s.alien_dir s.width).1 s.player.y).1 = _
        rw [hm]
        show (descendStep (s.aliens.map (fun a => { a with x := a.x + s.alien_dir }))
          s.player.y).1 = _
        rw [hd]
    | false =>
        rw [if_neg (by simp), if_neg (by simp)]
        show (marchStep s.aliens s.alien_dir s.width).1 = _
        rw [hm]
  · rw [advanceAliens_eq]
    cases hB : (marchStep s.aliens s.alien_dir s.width).2 with
    | true =>
        rw [if_pos rfl]
        show (s.game_over
            || (descendStep (marchStep s.aliens s.alien_dir s.width).1 s.player.y).2) = _
        rw [hm]
        show (s.game_over
            || (descendStep (s.aliens.map (fun a => { a with x := a.x + s.alien_dir }))
                s.player.y).2) = _
        rw [hd, Bool.true_and]
    | false =>
        rw [if_neg (by simp)]
        show s.game_over = _
        rw [Bool.false_and, Bool.or_false]

/-- C2: in the collision pass each player laser scans the aliens for an
exact position match; each hit removes exactly one alien and the laser it
paired with and adds exactly 10 to the score (so removed-alien count,
removed-laser count, and score-increase/10 coincide and are bounded by the
laser count); a laser survives exactly when no alien matches it; and in the
single-laser/single-alien state at `(10, 5)` both are removed and the score
rises by exactly 10. -/
theorem resolveCollisions_spec :
    (∀ (lasers : List Laser) (aliens : List Alien) (score : Nat),
      ∃ k : Nat, k ≤ lasers.length ∧
        (collidePass lasers aliens score).1.length + k = lasers.length ∧
        (collidePass lasers aliens score).2.1.length + k = aliens.length ∧
        (collidePass lasers aliens score).2.2 = score + 10 * k) ∧
    (∀ (l : Laser) (aliens : List Alien),
      removeFirstHit l aliens = none ↔ ∀ a ∈ aliens, ¬(l.x = a.x ∧ l.y = a.y)) ∧
    (∀ score : Nat,
      collidePass [{ x := 10, y := 5, dir := -1 }] [{ x := 10, y := 5, frame := 0 }] score
        = ([], [], score + 10)) := by
  refine ⟨?_, removeFirstHit_none_iff, ?_⟩
  · intro lasers aliens score
    obtain ⟨k, h1, h2, h3⟩ := collidePass_counts lasers aliens score
    exact ⟨k, by omega, h1, h2, h3⟩
  · intro score
    simp [collidePass, removeFirstHit]

/-- Witness for `resolveCollisions_spec`: the `(10, 5)` scenario at
score 0. -/
theorem resolveCollisions_spec_witness :
    collidePass [{ x := 10, y := 5, dir := -1 }] [{ x := 10, y := 5, frame := 0 }] 0
      = ([], [], 0 + 10) :=
  resolveCollisions_spec.2.2 0

/-- C3: `init_aliens 80` yields exactly 55 aliens in a 5-row × 11-column
row-major grid at `x = 18 + 4c`, `y = 2 + 2r` (margin `(80 − 44) / 2 = 18`
centering the 44-column block, 4-column and 2-row spacing, first row 2
below the top border); the spawn is a function of the field width alone,
and the respawn performed by the wave-clear check on an empty alien list
rebuilds exactly `init_aliens width`. -/
theorem init_aliens_spec :
    (init_aliens 80).length = 55 ∧
    (∀ r : Nat, r < 5 → ∀ c : Nat, c < 11 →
      (init_aliens 80).get? (r * 11 + c)
        = some { x := 18 + 4 * (c : Int), y := 2 + 2 * (r : Int), frame := 0 }) ∧
    (∀ s : GameState, s.aliens = [] →
      (checkWaveCleared s).aliens = init_aliens s.width ∧
      (checkWaveCleared s).level = s.level + 1) := by
  refine ⟨by decide, by decide, ?_⟩
  intro s hs
  constructor <;> simp [checkWaveCleared, hs]

/-- Witness for `init_aliens_spec`: the first alien of the 80-wide grid
sits at `(18, 2)`, and respawning on a cleared 80-wide state rebuilds the
grid. -/
theorem init_aliens_spec_witness :
    (init_aliens 80).get? 0 = some { x := 18, y := 2, frame := 0 } ∧
    (checkWaveCleared clearedScenarioState).aliens = init_aliens 80 := by
  have h := init_aliens_spec
  constructor
  · have h0 := h.2.1 0 (by norm_num) 0 (by norm_num)
    simpa using h0
  · have h1 := (h.2.2 clearedScenarioState rfl).1
    simpa [clearedScenarioState, initGameState] using h1

/-- C5: a quit key observed while the loop is RUNNING (`game_over` false)
leaves the loop at once with the `quitExit` outcome, the state unchanged
and `game_over` still false — an outcome distinct from `gameOverExit`; and
the post-loop epilogue (blocking input, centered end message, wait for one
keystroke) runs on a `gameOverExit` loop exit. -/
theorem quit_exit_spec (i : TickInput) (rest : List TickInput) (s : GameState)
    (hg : s.game_over = false) (hk : i.key = Key.quit) :
    run (i :: rest) s = (s, Outcome.quitExit) ∧
    (run (i :: rest) s).1.game_over = false ∧
    Outcome.quitExit ≠ Outcome.gameOverExit ∧
    epilogue Outcome.gameOverExit
      = [EndAction.switchToBlocking, EndAction.drawCenteredMessage, EndAction.waitForKey] := by
  have h1 : run (i :: rest) s = (s, Outcome.quitExit) := by
    simp only [run]
    rw [if_neg (by simp [hg]), if_pos hk]
  exact ⟨h1, by rw [h1]; exact hg, by decide, rfl⟩

/-- Witness for `quit_exit_spec`: pressing `q` in the fresh 24×80 state. -/
theorem quit_exit_spec_witness :
    run [{ key := Key.quit, march := false, anim := false, firePick := none }]
        (initGameState 24 80)
      = (initGameState 24 80, Outcome.quitExit) :=
  (quit_exit_spec { key := Key.quit, march := false, anim := false, firePick := none }
    [] (initGameState 24 80) rfl rfl).1

/-- C7: the fire key appends a laser at `(player.x, player.y − 1)` exactly
when fewer than 3 player lasers are live and is a no-op at the cap; a full
loop iteration preserves the ≤ 3 bound (no other block adds player
lasers); hence from the initial state every oracle-driven session keeps at
most 3 live player lasers. -/
theorem player_laser_cap_spec :
    (∀ s : GameState, 3 ≤ s.player_lasers.length → applyInput Key.fire s = s) ∧
    (∀ s : GameState, s.player_lasers.length < 3 →
      (applyInput Key.fire s).player_lasers
        = s.player_lasers ++ [{ x := s.player.x, y := s.player.y - 1, dir := -1 }]) ∧
    (∀ (i : TickInput) (s : GameState), s.player_lasers.length ≤ 3 →
      (tickStep i s).player_lasers.length ≤ 3) ∧
    (∀ (height width : Int) (inputs : List TickInput),
      (run inputs (initGameState height width)).1.player_lasers.length ≤ 3) := by
  refine ⟨?_, ?_, tickStep_lasers_le, ?_⟩
  · intro s h
    simp only [applyInput]
    rw [if_neg (by omega)]
  · intro s h
    simp only [applyInput]
    rw [if_pos h]
  · intro height width inputs
    exact run_preserve (fun t => t.player_lasers.length ≤ 3) tickStep_lasers_le inputs _
      (by simp [initGameState])

/-- Witness for `player_laser_cap_spec`: one idle iteration of the fresh
24×80 state keeps the bound. -/
theorem player_laser_cap_spec_witness :
    (tickStep { key := Key.noKey, march := false, anim := false, firePick := none }
        (initGameState 24 80)).player_lasers.length ≤ 3 :=
  player_laser_cap_spec.2.2.1
    { key := Key.noKey, march := false, anim := false, firePick := none }
    (initGameState 24 80) (by simp [initGameState])

/-- C8: the alien-laser pass ends with `game_over` true iff some alien
laser sits exactly on the player (or the flag was already true) — the flag
is a single boolean however many lasers coincide — and the pass removes no
laser and changes no other field of the state. -/
theorem alienLasersHitPlayer_spec (s : GameState) :
    ((alienLasersHitPlayer s).game_over
        = (s.game_over ||
            s.alien_lasers.any
              (fun l => decide (l.x = s.player.x) && decide (l.y = s.player.y)))) ∧
    (alienLasersHitPlayer s).alien_lasers = s.alien_lasers ∧
    (alienLasersHitPlayer s).player_lasers = s.player_lasers ∧
    (alienLasersHitPlayer s).aliens = s.aliens ∧
    (alienLasersHitPlayer s).player = s.player ∧
    (alienLasersHitPlayer s).score = s.score ∧
    (alienLasersHitPlayer s).level = s.level ∧
    (alienLasersHitPlayer s).alien_dir = s.alien_dir ∧
    (alienLasersHitPlayer s).width = s.width ∧
    (alienLasersHitPlayer s).height = s.height :=
  ⟨alienHitFlag_eq s.alien_lasers s.player s.game_over,
    rfl, rfl, rfl, rfl, rfl, rfl, rfl, rfl, rfl⟩

/-- C9: laser advancement moves every laser one step along its direction
(`y += dir`); the surviving player lasers are exactly the advanced ones
with `y > 1` (removal at the top border test `y ≤ 1`), the surviving alien
lasers exactly the advanced ones with `y < height − 1` (removal at the
bottom border test `y ≥ height − 1`), in order and otherwise unchanged;
and the pass touches nothing but the two laser lists. -/
theorem advanceProjectiles_spec (s : GameState) :
    (∀ l : Laser, l.update = { l with y := l.y + l.dir }) ∧
    (advanceProjectiles s).player_lasers
        = (s.player_lasers.map Laser.update).filter (fun l => !decide (l.y ≤ 1)) ∧
    (advanceProjectiles s).alien_lasers
        = (s.alien_lasers.map Laser.update).filter (fun l => !decide (l.y ≥ s.height - 1)) ∧
    (advanceProjectiles s).aliens = s.aliens ∧
    (advanceProjectiles s).player = s.player ∧
    (advanceProjectiles s).score = s.score ∧
    (advanceProjectiles s).game_over = s.game_over :=
  ⟨fun _ => rfl, updatePlayerLasers_eq s.player_lasers,
    updateAlienLasers_eq s.height s.alien_lasers, rfl, rfl, rfl, rfl⟩

/-- C10: the player's row is fixed for the whole session: `Player.move`
changes only `x`, a full loop iteration leaves `player.y` unchanged
(including across wave respawns), every oracle-driven session leaves it
unchanged, and initialization pins it to `height − 2`. -/
theorem player_row_constant_spec :
    (∀ (p : Player) (dx : Int), (p.move dx).y = p.y) ∧
    (∀ (i : TickInput) (s : GameState), (tickStep i s).player.y = s.player.y) ∧
    (∀ (inputs : List TickInput) (s : GameState),
      (run inputs s).1.player.y = s.player.y) ∧
    (∀ height width : Int, (initGameState height width).player.y = height - 2) := by
  refine ⟨fun p dx => rfl, tickStep_player_y, ?_, fun height width => rfl⟩
  intro inputs s
  exact run_preserve (fun t => t.player.y = s.player.y)
    (fun i t ht => by
      show (tickStep i t).player.y = s.player.y
      rw [tickStep_player_y]
      exact ht) inputs s rfl
